import Mathlib

set_option maxHeartbeats 1000000

/-
Shallow embedding of src/src/tcp.cpp (libtins TCP layer).

Bytes are Nat values below 256 and buffers are lists of bytes.  The 20-byte
fixed header (struct tcphdr) is kept as its raw byte list, exactly as the
source memcpys it in and out; field accessors read and write the wire bytes.
Field offsets (source port at 0, destination port at 2, data offset in the
high nibble of byte 12, window at 14, checksum at 16) are modelled from the
spec, since tcp.h is not among the sources: the spec fixes the standard TCP
field order, big-endian wire fields, and net_to_host_s / net_to_host_l as
byte swaps on the little-endian host, so a field setter stores the
big-endian bytes of its argument.
-/

/-- kind byte of the END_OF_OPTIONS option. -/
def EOL : Nat := 0

/-- kind byte of the NOP option. -/
def NOP : Nat := 1

/-- store a 16-bit field at byte offset off: the source stores
net_to_host_s v into the field, which lays out the big-endian bytes of
v mod 2^16 at offsets off and off+1. -/
def setU16 (h : List Nat) (off v : Nat) : List Nat :=
  (h.set off (v % 2 ^ 16 / 256)).set (off + 1) (v % 256)

/-- read a 16-bit field at byte offset off back to host order. -/
def getU16 (h : List Nat) (off : Nat) : Nat :=
  h.getD off 0 * 256 + h.getD (off + 1) 0

/-- data_offset(): the doff:4 bit-field is the high nibble of byte 12. -/
def getDoff (h : List Nat) : Nat := h.getD 12 0 / 16 % 16

/-- data_offset(v): bit-field assignment truncates to 4 bits and leaves the
low nibble of byte 12 unchanged. -/
def setDoff (h : List Nat) (v : Nat) : List Nat :=
  h.set 12 (v % 16 * 16 + h.getD 12 0 % 16)

/-- test of the condition !_tcp.check: the 16-bit checksum field is zero
iff both of its bytes are zero. -/
def checkZeroB (h : List Nat) : Bool :=
  h.getD 16 0 == 0 && h.getD 17 0 == 0

/-- one TLV option record: Tins::TCP::TCPOption.  The value list models the
owned buffer; the empty list models a null value pointer. -/
structure TCPOption where
  option : Nat
  length : Nat
  value : List Nat
deriving DecidableEq

/-- the TCP layer state: the raw 20 header bytes, the option list and the
two uint32 size counters. -/
structure TCPState where
  tcp : List Nat
  options : List TCPOption
  options_size : Nat
  total_options_size : Nat
deriving DecidableEq

/-- Tins::TCP::add_option(tcp_option, length, data).  The length parameter
is a uint8_t, so it is taken mod 256; a nonzero length allocates a copy of
that many data bytes, otherwise the value pointer stays null.  The size
counters are uint32, hence the mod 2^32. -/
def add_option (t : TCPState) (kind len : Nat) (data : List Nat) : TCPState :=
  let l := len % 256
  let value : List Nat := if l ≠ 0 then data.take l else []
  let osz := (t.options_size + (l + 2)) % 2 ^ 32
  let padding := osz % 4
  let tsz := if padding ≠ 0 then (osz - padding + 4) % 2 ^ 32 else osz
  { tcp := t.tcp
    options := t.options ++ [⟨kind, l, value⟩]
    options_size := osz
    total_options_size := tsz }

/-- errors of the decode path.  framing models the std::runtime_error
throws; outOfFuel is an artifact of the fuel-indexed loop model and is
never produced when the fuel is at least header_end minus the start
index. -/
inductive TcpErr where
  | framing
  | outOfFuel
deriving DecidableEq

/-- the option scan loop of Tins::TCP::TCP(const uint8_t*, uint32_t)
(tcp.cpp lines 63-88), operating on the bytes after the fixed header.
One fuel unit is spent per while-iteration.  Reading args[0] at the top of
an iteration cannot hit header_end (the loop guard excludes it), so only
the length-byte read carries the in-loop bounds throw. -/
def scanOptions (fuel : Nat) (buf : List Nat) (hend index : Nat)
    (st : TCPState) : Except TcpErr TCPState :=
  if index < hend then
    match fuel with
    | 0 => .error .outOfFuel
    | fuel + 1 =>
      let a0 := buf.getD index 0
      if a0 = NOP then
        scanOptions fuel buf hend (index + 1) st
      else if index + 1 = hend then
        .error .framing
      else
        let a1 := buf.getD (index + 1) 0
        if a0 = EOL then
          .ok st
        else
          let len := (a1 + 254) % 256
          if hend - (index + 2) < len then
            .error .framing
          else
            scanOptions fuel buf hend (index + 2 + len)
              (add_option st a0 len (buf.drop (index + 2)))
  else
    .ok st

/-- header_end = data_offset()*4 - sizeof(tcphdr) as uint32 arithmetic:
it wraps around when data_offset is below 5. -/
def headerEnd (d : Nat) : Nat := (d * 4 + 2 ^ 32 - 20) % 2 ^ 32

/-- Tins::TCP::TCP(const uint8_t *buffer, uint32_t total_sz), with the
declared length equal to the length of the byte list.  Returns the decoded
state together with the trailing payload bytes that the source wraps in a
RawPDU (empty list when no payload remains). -/
def TCP_from_buffer (buf : List Nat) : Except TcpErr (TCPState × List Nat) :=
  if buf.length < 20 then .error .framing
  else
    let hdr := buf.take 20
    let rest := buf.drop 20
    let tsz := buf.length - 20
    let hend := headerEnd (getDoff hdr)
    let st0 : TCPState := ⟨hdr, [], 0, 0⟩
    if hend ≤ tsz then
      match scanOptions hend rest hend 0 st0 with
      | .error e => .error e
      | .ok st => .ok (st, rest.drop hend)
    else
      .ok (st0, rest)

/-- Tins::TCP::TCPOption::write.  The source advances the output cursor by
buffer[1] = (length + 2) mod 256 after writing kind, length byte and value,
so for length at most 253 (the only lengths the decoder or the typed
helpers can store against a 40-byte option region) the emitted bytes are
exactly the advance; we model that regime. -/
def TCPOption.write (o : TCPOption) : List Nat :=
  if o.option = 1 then [o.option % 256]
  else o.option % 256 :: (o.length + 2) % 256 :: o.value

/-- Tins::TCP::header_size(). -/
def header_size (t : TCPState) : Nat := 20 + t.total_options_size

/-- Modelled from the spec: Utils::do_checksum computes the ones-complement
16-bit-word sum over a byte range (big-endian word assembly). -/
def do_checksum : List Nat → Nat
  | [] => 0
  | [b] => b * 256
  | b0 :: b1 :: rest => b0 * 256 + b1 + do_checksum rest

/-- Modelled from the spec: Utils::pseudoheader_checksum sums the 16-bit
words of the two addresses plus the protocol number and the segment
length. -/
def pseudoheader_checksum (src dst len proto : Nat) : Nat :=
  src / 2 ^ 16 + src % 2 ^ 16 + dst / 2 ^ 16 + dst % 2 ^ 16 + len + proto

/-- the carry folding loop: while (checksum >> 16) checksum =
(checksum & 0xffff) + (checksum >> 16). -/
def foldCarries (n : Nat) : Nat :=
  if n < 2 ^ 16 then n
  else foldCarries (n % 2 ^ 16 + n / 2 ^ 16)
termination_by n
decreasing_by
  have h2 : 0 < n / 2 ^ 16 := Nat.div_pos (by omega) (by norm_num)
  omega

/-- Tins::TCP::write_serialization(buffer, total_sz, parent).  The parent
is modelled as an optional pair of IP source and destination addresses
(dynamic_cast to Tins::IP succeeds iff it is some); payload is the already
serialized inner PDU that the chaining framework places after the header,
which the checksum pass reads (modelled from the spec, as the PDU framework
is not among the sources).  Returns the bytes written for the header plus
options region together with the state after the pass (the source mutates
_tcp.doff before the memcpy and resets _tcp.check to zero at the end). -/
def write_serialization (t : TCPState) (parent : Option (Nat × Nat))
    (payload : List Nat) : List Nat × TCPState :=
  let doffNew := (20 + t.total_options_size) / 4 % 16
  let hdr := setDoff t.tcp doffNew
  let optBytes := (t.options.map TCPOption.write).flatten
  let padBytes :=
    if t.options_size < t.total_options_size then
      List.replicate (t.total_options_size - t.options_size % 256) 1
    else []
  let pre := hdr ++ optBytes ++ padBytes
  let out :=
    match parent with
    | some (src, dst) =>
      if checkZeroB hdr then
        let cks := foldCarries
          (pseudoheader_checksum src dst (20 + t.total_options_size + payload.length) 6
            + do_checksum (pre ++ payload))
        setU16 pre 16 (65535 - cks)
      else pre
    | none => pre
  (out, ⟨setU16 hdr 16 0, t.options, t.options_size, t.total_options_size⟩)

/-- Tins::TCP::TCP(uint16_t dport, uint16_t sport): zeroed header, then the
dport, sport, data_offset and window setters. -/
def TCP_init (dport sport : Nat) : TCPState :=
  let h0 := List.replicate 20 0
  let h1 := setU16 h0 2 dport
  let h2 := setU16 h1 0 sport
  let h3 := setDoff h2 (20 / 4)
  let h4 := setU16 h3 14 32678
  ⟨h4, [], 0, 0⟩

/-- Tins::TCP::check(uint16_t new_check). -/
def TCP_check (t : TCPState) (v : Nat) : TCPState :=
  { t with tcp := setU16 t.tcp 16 v }

/-- Tins::TCP::search_option: first option with the given kind. -/
def search_option (t : TCPState) (opt : Nat) : Option TCPOption :=
  t.options.find? (fun o => o.option == opt)

/-- wire bytes of net_to_host_l v stored through a uint32 pointer on the
little-endian host: the big-endian bytes of v as a uint32. -/
def net32bytes (v : Nat) : List Nat :=
  [v % 2 ^ 32 / 2 ^ 24, v % 2 ^ 24 / 2 ^ 16, v % 2 ^ 16 / 2 ^ 8, v % 2 ^ 8]

/-- Tins::TCP::add_sack_option: packs the edges big-endian and adds a kind
5 option whose uint8 length is 4 * edges.length truncated mod 256. -/
def add_sack_option (t : TCPState) (edges : List Nat) : TCPState :=
  add_option t 5 (4 * edges.length) (edges.flatMap net32bytes)

/-- the word read-back loop of search_sack_option: reads n uint32 words
and converts each with net_to_host_l. -/
def readWords : Nat → List Nat → List Nat
  | 0, _ => []
  | n + 1, bs =>
    (bs.getD 0 0 * 2 ^ 24 + bs.getD 1 0 * 2 ^ 16 + bs.getD 2 0 * 2 ^ 8 + bs.getD 3 0)
      :: readWords n (bs.drop 4)

/-- Tins::TCP::search_sack_option: not-found when there is no kind 5
option or its stored length is not a multiple of 4; otherwise the decoded
edge list in stored order. -/
def search_sack_option (t : TCPState) : Option (List Nat) :=
  match search_option t 5 with
  | none => none
  | some o => if o.length % 4 = 0 then some (readWords (o.length / 4) o.value) else none

/-- the per-option body of Tins::TCP::copy_fields: a fresh record with the
same kind and length, and a copy of length value bytes when the source
value pointer is not null. -/
def copy_option (o : TCPOption) : TCPOption :=
  ⟨o.option, o.length, if o.value ≠ [] then o.value.take o.length else []⟩

/-- Tins::TCP::copy_fields(other): copies the header bytes and the size
counters, and push_backs a deep copy of every source option onto the
DESTINATION list as it stands - the destination list is not cleared
first. -/
def copy_fields (dst src : TCPState) : TCPState :=
  ⟨src.tcp, dst.options ++ src.options.map copy_option,
    src.options_size, src.total_options_size⟩

/-- the copy constructor TCP(const TCP&): a fresh object (empty option
list) then copy_fields. -/
def TCP_copy_ctor (src : TCPState) : TCPState :=
  copy_fields ⟨List.replicate 20 0, [], 0, 0⟩ src

/-- operator=(const TCP&): copy_fields onto the existing object. -/
def TCP_assign (dst src : TCPState) : TCPState := copy_fields dst src

/-- a fold of add_option calls, one per (kind, length, data) item. -/
def addMany (t : TCPState) (items : List (Nat × Nat × List Nat)) : TCPState :=
  items.foldl (fun s i => add_option s i.1 i.2.1 i.2.2) t

/-- raw encoded size of a list of insertions: the sum of length + 2 with
the uint8 truncation of each length. -/
def sumRaw (items : List (Nat × Nat × List Nat)) : Nat :=
  (items.map (fun i => i.2.1 % 256 + 2)).sum

/-- a value rounded up to the next multiple of 4. -/
def round4 (x : Nat) : Nat := (x + 3) / 4 * 4

/-- the wire bytes of one option entry as the decoder sees it: kind byte,
total-length byte, value bytes. -/
def entryBytes (e : Nat × Nat × List Nat) : List Nat :=
  e.1 :: e.2.1 :: e.2.2

/-- a well-formed stored-option entry: a kind that is neither EOL nor NOP,
a total-length byte of at least 2, and exactly total-length minus 2 value
bytes. -/
def GoodEntry (e : Nat × Nat × List Nat) : Prop :=
  e.1 ≠ 0 ∧ e.1 ≠ 1 ∧ e.1 < 256 ∧ 2 ≤ e.2.1 ∧ e.2.1 < 256 ∧
    e.2.2.length = e.2.1 - 2

instance (e : Nat × Nat × List Nat) : Decidable (GoodEntry e) := by
  unfold GoodEntry; infer_instance

/-- the option record the decoder stores for one entry. -/
def entryOption (e : Nat × Nat × List Nat) : TCPOption :=
  ⟨e.1, e.2.1 - 2, e.2.2⟩

/-- the option record add_option stores for one (kind, length, data)
item. -/
def itemOption (i : Nat × Nat × List Nat) : TCPOption :=
  ⟨i.1, i.2.1 % 256,
    if i.2.1 % 256 ≠ 0 then i.2.2.take (i.2.1 % 256) else []⟩

/-- the add_option folds the scan performs over a list of entries: the
stored length is the total-length byte minus 2. -/
def addEntries (t : TCPState) (entries : List (Nat × Nat × List Nat)) : TCPState :=
  addMany t (entries.map fun e => (e.1, e.2.1 - 2, e.2.2))

instance {ε α : Type} [DecidableEq ε] [DecidableEq α] : DecidableEq (Except ε α) :=
  fun a b =>
    match a, b with
    | .ok x, .ok y =>
      if h : x = y then .isTrue (by rw [h]) else .isFalse (by intro hc; cases hc; exact h rfl)
    | .error x, .error y =>
      if h : x = y then .isTrue (by rw [h]) else .isFalse (by intro hc; cases hc; exact h rfl)
    | .ok _, .error _ => .isFalse (by intro hc; cases hc)
    | .error _, .ok _ => .isFalse (by intro hc; cases hc)

/-- a concrete 20-byte header: source port 443, destination port 80,
window 32678, a given byte 12 (data offset in the high nibble) and given
checksum bytes. -/
def mkHdr (doffbyte c0 c1 : Nat) : List Nat :=
  [1, 187, 0, 80, 0, 0, 0, 0, 0, 0, 0, 0, doffbyte, 0, 127, 166, c0, c1, 0, 0]

/-- concrete buffer for the round-trip analysis: data offset 7 (an 8-byte
options region), pre-set checksum 0xFFFF, and an options region of four
NOPs followed by one stored SACK-kind entry. -/
def c1buf : List Nat := mkHdr 0x70 255 255 ++ [1, 1, 1, 1, 5, 4, 0, 7]

/-- the state c1buf decodes to. -/
def c1st : TCPState := ⟨mkHdr 0x70 255 255, [⟨5, 2, [0, 7]⟩], 4, 4⟩

/-- concrete source segment holding one option. -/
def c5src : TCPState := add_option (TCP_init 1 2) 2 2 [9, 9]

/-- concrete destination segment that already holds an option before the
assignment. -/
def c5dst : TCPState := add_option (TCP_init 3 4) 3 1 [7]

/-- the repeated insertion used for the size-counter wrap analysis: kind 5,
length 255; 16711935 * 257 = 2^32 - 1. -/
def c6item : Nat × Nat × List Nat := (5, 255, List.replicate 255 0)

/- List helper lemmas. -/

theorem getD_set_ne {α : Type} (l : List α) (i j : Nat) (v d : α) (h : i ≠ j) :
    (l.set i v).getD j d = l.getD j d := by
  induction l generalizing i j with
  | nil => rfl
  | cons a t ih =>
    cases i with
    | zero =>
      cases j with
      | zero => exact absurd rfl h
      | succ j => simp [List.set]
    | succ i =>
      cases j with
      | zero => simp [List.set]
      | succ j => simpa [List.set] using ih i j (by omega)

theorem getD_set_self {α : Type} (l : List α) (i : Nat) (v d : α) (h : i < l.length) :
    (l.set i v).getD i d = v := by
  induction l generalizing i with
  | nil => simp at h
  | cons a t ih =>
    cases i with
    | zero => simp [List.set]
    | succ i => simpa [List.set] using ih i (by simpa using h)

theorem set_getD_self {α : Type} (l : List α) (i : Nat) (d : α) :
    l.set i (l.getD i d) = l := by
  induction l generalizing i with
  | nil => rfl
  | cons a t ih =>
    cases i with
    | zero => simp [List.set]
    | succ i =>
      rw [List.getD_cons_succ]
      show a :: t.set i (t.getD i d) = a :: t
      rw [ih]

theorem getD_append_lt {α : Type} (l₁ l₂ : List α) (i : Nat) (d : α)
    (h : i < l₁.length) : (l₁ ++ l₂).getD i d = l₁.getD i d := by
  induction l₁ generalizing i with
  | nil => simp at h
  | cons a t ih =>
    cases i with
    | zero => simp
    | succ i => simpa using ih i (by simpa using h)

theorem getD_of_drop {α : Type} (l : List α) (i : Nat) (a : α) (t : List α)
    (d : α) (h : l.drop i = a :: t) : l.getD i d = a := by
  induction l generalizing i with
  | nil => simp at h
  | cons b u ih =>
    cases i with
    | zero => simp at h; simp [h.1]
    | succ i => simpa using ih i (by simpa using h)

theorem drop_succ_of_drop {α : Type} (l : List α) (i : Nat) (a : α)
    (t : List α) (h : l.drop i = a :: t) : l.drop (i + 1) = t := by
  induction l generalizing i with
  | nil => simp at h
  | cons b u ih =>
    cases i with
    | zero => simp at h ⊢; exact h.2
    | succ i => simpa using ih i (by simpa using h)

theorem getD_lt_of_forall (l : List Nat) (i m : Nat) (h : ∀ b ∈ l, b < m)
    (hi : i < l.length) : l.getD i 0 < m := by
  induction l generalizing i with
  | nil => simp at hi
  | cons a t ih =>
    cases i with
    | zero => exact h a (by simp)
    | succ i =>
      exact ih i (fun b hb => h b (by simp [hb])) (by simpa using hi)

theorem find?_append_none {α : Type} (p : α → Bool) (l₁ l₂ : List α)
    (h : ∀ a ∈ l₁, p a = false) : (l₁ ++ l₂).find? p = l₂.find? p := by
  have h1 : l₁.find? p = none := by
    rw [List.find?_eq_none]
    intro x hx
    simp [h x hx]
  rw [List.find?_append, h1, Option.none_or]

/- Unfolding lemmas for the scan loop. -/

theorem scanOptions_stop (fuel : Nat) (buf : List Nat) (hend index : Nat)
    (st : TCPState) (h : ¬ index < hend) :
    scanOptions fuel buf hend index st = .ok st := by
  cases fuel <;> simp [scanOptions, h]

theorem scanOptions_step (fuel : Nat) (buf : List Nat) (hend index : Nat)
    (st : TCPState) (h : index < hend) :
    scanOptions (fuel + 1) buf hend index st =
      (if buf.getD index 0 = NOP then scanOptions fuel buf hend (index + 1) st
       else if index + 1 = hend then .error .framing
       else if buf.getD index 0 = EOL then .ok st
       else if hend - (index + 2) < (buf.getD (index + 1) 0 + 254) % 256 then
         .error .framing
       else
         scanOptions fuel buf hend (index + 2 + (buf.getD (index + 1) 0 + 254) % 256)
           (add_option st (buf.getD index 0) ((buf.getD (index + 1) 0 + 254) % 256)
             (buf.drop (index + 2)))) := by
  simp [scanOptions, h]

/- Claim C8. -/

/-- C8: decoding any buffer of declared length strictly below 20 bytes
fails with a framing error; no segment is constructed (the decode result
is an error, not a state). -/
theorem c8_short_buffer_framing (buf : List Nat) (h : buf.length < 20) :
    TCP_from_buffer buf = .error .framing := by
  unfold TCP_from_buffer
  rw [if_pos h]

/-- C8 witness: the three-byte buffer [0, 1, 2]. -/
theorem c8_short_buffer_framing_witness :
    ([0, 1, 2] : List Nat).length < 20 ∧
      TCP_from_buffer [0, 1, 2] = .error .framing :=
  ⟨by decide, c8_short_buffer_framing [0, 1, 2] (by decide)⟩

/- Claim C9. -/

/-- C9 counterexample: the segment built by TCP(80, 443) does not
serialize to bytes beginning 00 50 01 BB; the source port field (443)
comes first on the wire. -/
theorem c9_first_bytes_counterexample :
    (write_serialization (TCP_init 80 443) none []).1.take 4 ≠
      [0x00, 0x50, 0x01, 0xBB] := by decide

/-- C9 amended: the segment built by TCP(80, 443) with no options and all
other fields defaulted serializes to 20 bytes beginning 01 BB 00 50
(source port 443, then destination port 80), with data_offset encoding to
5, header_size 20, and window field 32678. -/
theorem c9_default_segment_serialization :
    (write_serialization (TCP_init 80 443) none []).1.take 4 = [0x01, 0xBB, 0x00, 0x50] ∧
      getDoff (write_serialization (TCP_init 80 443) none []).1 = 5 ∧
      header_size (TCP_init 80 443) = 20 ∧
      getU16 (write_serialization (TCP_init 80 443) none []).1 14 = 32678 ∧
      (write_serialization (TCP_init 80 443) none []).1.length = 20 := by
  decide

/- Claim C2. -/

/-- C2 counterexample: a 20-byte buffer whose data_offset is 6 claims a
4-byte options region that is not present; decoding does not fail, it
constructs a segment with no options. -/
theorem c2_short_options_counterexample :
    TCP_from_buffer (mkHdr 0x60 0 0) = .ok (⟨mkHdr 0x60 0 0, [], 0, 0⟩, []) := by
  decide

/-- C2 amended: when the declared length minus 20 is smaller than the
options region claimed by data_offset, decoding does not fail: the option
scan is silently skipped, the segment is constructed with an empty option
collection, and every byte after the fixed header becomes the raw
payload. -/
theorem c2_short_options_skip (buf : List Nat) (h20 : 20 ≤ buf.length)
    (h : buf.length - 20 < headerEnd (getDoff (buf.take 20))) :
    TCP_from_buffer buf = .ok (⟨buf.take 20, [], 0, 0⟩, buf.drop 20) := by
  unfold TCP_from_buffer
  rw [if_neg (by omega), if_neg (by omega)]

/-- C2 witness: the 20-byte buffer with data_offset 6. -/
theorem c2_short_options_skip_witness :
    20 ≤ (mkHdr 0x60 0 0).length ∧
      (mkHdr 0x60 0 0).length - 20 < headerEnd (getDoff ((mkHdr 0x60 0 0).take 20)) ∧
      TCP_from_buffer (mkHdr 0x60 0 0) =
        .ok (⟨(mkHdr 0x60 0 0).take 20, [], 0, 0⟩, (mkHdr 0x60 0 0).drop 20) :=
  ⟨by decide, by decide, c2_short_options_skip (mkHdr 0x60 0 0) (by decide) (by decide)⟩

/- Claim C3. -/

/-- C3 counterexample: a 24-byte buffer with data_offset 6 whose options
region is NOP NOP NOP EOL; the EOL kind byte is the last byte of the
region, and decoding raises a framing error instead of stopping
quietly. -/
theorem c3_eol_last_byte_counterexample :
    TCP_from_buffer (mkHdr 0x60 0 0 ++ [1, 1, 1, 0]) = .error .framing := by
  decide

/-- C3 amended: when the scan reads an END_OF_OPTIONS kind byte it also
consumes the following length byte.  If the EOL byte is the last byte of
the options region this raises a framing error; otherwise the scan stops
with the accumulated state unchanged (nothing more is stored and the rest
of the region is treated as consumed). -/
theorem c3_eol_behaviour (fuel : Nat) (buf : List Nat) (hend index : Nat)
    (st : TCPState) (hf : 1 ≤ fuel) (hix : index < hend)
    (h0 : buf.getD index 0 = 0) :
    (index + 1 = hend → scanOptions fuel buf hend index st = .error .framing) ∧
      (index + 1 < hend → scanOptions fuel buf hend index st = .ok st) := by
  obtain ⟨f, rfl⟩ : ∃ f, fuel = f + 1 := ⟨fuel - 1, by omega⟩
  rw [scanOptions_step f buf hend index st hix]
  rw [h0]
  constructor
  · intro hlast
    rw [if_neg (by decide), if_pos hlast]
  · intro hlt
    have hEOL : (0 : Nat) = EOL := by decide
    rw [if_neg (by decide), if_neg (by omega), if_pos hEOL]

/-- C3 witness: an EOL kind byte at index 0 of a 3-byte region stops the
scan without error and stores nothing. -/
theorem c3_eol_behaviour_witness :
    scanOptions 5 [0, 9, 9] 3 0 (TCP_init 80 443) = .ok (TCP_init 80 443) :=
  (c3_eol_behaviour 5 [0, 9, 9] 3 0 (TCP_init 80 443) (by decide) (by decide)
    (by decide)).2 (by decide)

/- Claim C10. -/

/-- C10: in the decoder option scan (reached only when the buffer covers
the options region, which forces data_offset at least 5 and a region of at
most 40 bytes), an entry whose kind is neither EOL nor NOP and whose
total-length byte is 0 or 1 yields value length 254 or 255 after the mod
256 subtraction, which exceeds the region, so the scan fails with a
framing error. -/
theorem c10_tiny_length_framing (buf : List Nat) (st : TCPState)
    (index fuel : Nat) (h32 : buf.length < 2 ^ 32) (h20 : 20 ≤ buf.length)
    (hscan : headerEnd (getDoff (buf.take 20)) ≤ buf.length - 20)
    (hix : index + 1 < headerEnd (getDoff (buf.take 20)))
    (hk0 : (buf.drop 20).getD index 0 ≠ 0)
    (hk1 : (buf.drop 20).getD index 0 ≠ 1)
    (hlb : (buf.drop 20).getD (index + 1) 0 ≤ 1)
    (hf : 1 ≤ fuel) :
    scanOptions fuel (buf.drop 20) (headerEnd (getDoff (buf.take 20))) index st =
      .error .framing := by
  have hd : getDoff (buf.take 20) < 16 := Nat.mod_lt _ (by norm_num)
  have hhe : headerEnd (getDoff (buf.take 20)) ≤ 40 := by
    unfold headerEnd at hscan ⊢
    omega
  obtain ⟨f, rfl⟩ : ∃ f, fuel = f + 1 := ⟨fuel - 1, by omega⟩
  rw [scanOptions_step f _ _ _ _ (by omega)]
  rw [if_neg (by simpa [NOP] using hk1), if_neg (by omega),
    if_neg (by simpa [EOL] using hk0), if_pos (by omega)]

/-- C10 witness: a 24-byte buffer whose options region starts with kind 2
and total-length byte 0. -/
theorem c10_tiny_length_framing_witness :
    scanOptions 4 ((mkHdr 0x60 0 0 ++ [2, 0, 9, 9]).drop 20)
        (headerEnd (getDoff ((mkHdr 0x60 0 0 ++ [2, 0, 9, 9]).take 20))) 0
        (TCP_init 80 443) = .error .framing :=
  c10_tiny_length_framing (mkHdr 0x60 0 0 ++ [2, 0, 9, 9]) (TCP_init 80 443) 0 4
    (by decide) (by decide) (by decide) (by decide) (by decide) (by decide)
    (by decide) (by decide)

/- Claim C4. -/

/-- C4 counterexample: serializing a segment whose checksum field was
pre-set to 0x1234 with no parent does not write zero checksum bytes; the
pre-set value is emitted. -/
theorem c4_preset_checksum_counterexample :
    checkZeroB (write_serialization (TCP_check (TCP_init 80 443) 0x1234) none []).1 = false ∧
      (write_serialization (TCP_check (TCP_init 80 443) 0x1234) none []).1.getD 16 0 = 0x12 ∧
      (write_serialization (TCP_check (TCP_init 80 443) 0x1234) none []).1.getD 17 0 = 0x34 := by
  decide

/-- C4 amended: the checksum is computed and written exactly when the
stored checksum field is zero and the parent is an IP layer; otherwise the
serialized checksum bytes equal the stored checksum field (zero only when
that field is zero); and after any serialize pass the stored checksum
field is reset to zero, so a second serialize recomputes. -/
theorem c4_checksum_gating (t : TCPState) (parent : Option (Nat × Nat))
    (payload : List Nat) (hlen : t.tcp.length = 20) :
    ((checkZeroB t.tcp = false ∨ parent = none) →
        (write_serialization t parent payload).1.getD 16 0 = t.tcp.getD 16 0 ∧
        (write_serialization t parent payload).1.getD 17 0 = t.tcp.getD 17 0) ∧
      (∀ src dst, parent = some (src, dst) → checkZeroB t.tcp = true →
        (write_serialization t parent payload).1 =
          setU16 (write_serialization t none payload).1 16
            (65535 - foldCarries
              (pseudoheader_checksum src dst (header_size t + payload.length) 6 +
                do_checksum ((write_serialization t none payload).1 ++ payload)))) ∧
      checkZeroB (write_serialization t parent payload).2.tcp = true := by
  have hdl : (setDoff t.tcp ((20 + t.total_options_size) / 4 % 16)).length = 20 := by
    simp [setDoff, hlen]
  have h16 : ∀ v, (setDoff t.tcp v).getD 16 0 = t.tcp.getD 16 0 := by
    intro v
    exact getD_set_ne _ 12 16 _ 0 (by omega)
  have h17 : ∀ v, (setDoff t.tcp v).getD 17 0 = t.tcp.getD 17 0 := by
    intro v
    exact getD_set_ne _ 12 17 _ 0 (by omega)
  have hcz : ∀ v, checkZeroB (setDoff t.tcp v) = checkZeroB t.tcp := by
    intro v
    simp only [checkZeroB, h16, h17]
  refine ⟨?_, ?_, ?_⟩
  · intro hno
    have hout : (write_serialization t parent payload).1 =
        setDoff t.tcp ((20 + t.total_options_size) / 4 % 16) ++
          (t.options.map TCPOption.write).flatten ++
          (if t.options_size < t.total_options_size then
            List.replicate (t.total_options_size - t.options_size % 256) 1
          else []) := by
      cases parent with
      | none => rfl
      | some p =>
        obtain ⟨src, dst⟩ := p
        have hf : checkZeroB t.tcp = false := by
          rcases hno with h | h
          · exact h
          · simp at h
        simp only [write_serialization, hcz, hf, Bool.false_eq_true, if_false]
    rw [hout, List.append_assoc]
    constructor
    · rw [getD_append_lt _ _ 16 0 (by simp [hdl]), h16]
    · rw [getD_append_lt _ _ 17 0 (by simp [hdl]), h17]
  · intro src dst hp hz
    subst hp
    have ht : checkZeroB (setDoff t.tcp ((20 + t.total_options_size) / 4 % 16)) = true := by
      rw [hcz, hz]
    simp only [write_serialization, header_size, ht, if_true]
  · have hst : (write_serialization t parent payload).2.tcp =
        setU16 (setDoff t.tcp ((20 + t.total_options_size) / 4 % 16)) 16 0 := by
      cases parent with
      | none => rfl
      | some p => obtain ⟨src, dst⟩ := p; rfl
    rw [hst]
    simp only [setU16, checkZeroB]
    rw [getD_set_ne _ 17 16 _ 0 (by omega),
      getD_set_self _ 16 _ 0 (by simp [hdl]),
      getD_set_self _ 17 _ 0 (by simp [hdl])]
    decide

/-- C4 witness: a default segment (checksum zero) serialized under an IP
parent 10.0.0.1 to 10.0.0.2. -/
theorem c4_checksum_gating_witness :
    (((checkZeroB (TCP_init 80 443).tcp = false ∨
          (some (167772161, 167772162) : Option (Nat × Nat)) = none) →
        (write_serialization (TCP_init 80 443) (some (167772161, 167772162)) []).1.getD 16 0 =
            (TCP_init 80 443).tcp.getD 16 0 ∧
          (write_serialization (TCP_init 80 443) (some (167772161, 167772162)) []).1.getD 17 0 =
            (TCP_init 80 443).tcp.getD 17 0) ∧
      (∀ src dst, (some (167772161, 167772162) : Option (Nat × Nat)) = some (src, dst) →
        checkZeroB (TCP_init 80 443).tcp = true →
        (write_serialization (TCP_init 80 443) (some (167772161, 167772162)) []).1 =
          setU16 (write_serialization (TCP_init 80 443) none []).1 16
            (65535 - foldCarries
              (pseudoheader_checksum src dst
                  (header_size (TCP_init 80 443) + List.length ([] : List Nat)) 6 +
                do_checksum ((write_serialization (TCP_init 80 443) none []).1 ++ [])))) ∧
      checkZeroB (write_serialization (TCP_init 80 443) (some (167772161, 167772162)) []).2.tcp = true) :=
  c4_checksum_gating (TCP_init 80 443) (some (167772161, 167772162)) [] (by decide)

/- Size-counter lemmas for add_option folds. -/

theorem add_option_sizes (st : TCPState) (k len : Nat) (d : List Nat)
    (h : st.options_size + len % 256 + 2 ≤ 2 ^ 32 - 4) :
    (add_option st k len d).options_size = st.options_size + len % 256 + 2 ∧
      (add_option st k len d).total_options_size =
        round4 (st.options_size + len % 256 + 2) := by
  simp only [add_option, round4]
  constructor
  · omega
  · split
    · omega
    · omega

theorem sumRaw_cons (i : Nat × Nat × List Nat) (items : List (Nat × Nat × List Nat)) :
    sumRaw (i :: items) = i.2.1 % 256 + 2 + sumRaw items := by
  simp [sumRaw]

theorem addMany_append_one (st : TCPState) (items : List (Nat × Nat × List Nat))
    (i : Nat × Nat × List Nat) :
    addMany st (items ++ [i]) = add_option (addMany st items) i.1 i.2.1 i.2.2 := by
  unfold addMany
  rw [List.foldl_append]
  rfl

theorem add_option_osz (st : TCPState) (k len : Nat) (d : List Nat) :
    (add_option st k len d).options_size =
      (st.options_size + (len % 256 + 2)) % 2 ^ 32 := rfl

theorem add_option_tsz (st : TCPState) (k len : Nat) (d : List Nat) :
    (add_option st k len d).total_options_size =
      (if (st.options_size + (len % 256 + 2)) % 2 ^ 32 % 4 ≠ 0 then
        ((st.options_size + (len % 256 + 2)) % 2 ^ 32 -
            (st.options_size + (len % 256 + 2)) % 2 ^ 32 % 4 + 4) % 2 ^ 32
      else (st.options_size + (len % 256 + 2)) % 2 ^ 32) := rfl

theorem addMany_sizes : ∀ (items : List (Nat × Nat × List Nat)) (st : TCPState),
    st.total_options_size = round4 st.options_size →
    st.options_size + sumRaw items ≤ 2 ^ 32 - 4 →
    (addMany st items).options_size = st.options_size + sumRaw items ∧
      (addMany st items).total_options_size =
        round4 (st.options_size + sumRaw items) := by
  intro items
  induction items with
  | nil =>
    intro st h1 h2
    refine ⟨?_, ?_⟩ <;> simp [addMany, sumRaw, h1]
  | cons i items ih =>
    intro st h1 h2
    have hsc := sumRaw_cons i items
    have hso := add_option_sizes st i.1 i.2.1 i.2.2 (by omega)
    have hrec := ih (add_option st i.1 i.2.1 i.2.2)
      (by rw [hso.2, hso.1]) (by rw [hso.1]; omega)
    have hstep : addMany st (i :: items) = addMany (add_option st i.1 i.2.1 i.2.2) items := rfl
    constructor
    · rw [hstep, hrec.1, hso.1, hsc]
      omega
    · rw [hstep, hrec.2, hso.1, hsc, round4, round4]
      congr 1
      omega

/- Claim C6. -/

/-- C6 amended: after every sequence of insertions whose accumulated raw
size does not overflow the uint32 counters (sum of length+2 at most
2^32 - 4), starting from a state whose counters satisfy the padding
relation, the raw size equals the sum of (length+2) over stored options,
the padded size is the raw size rounded up to the next multiple of 4, and
0 <= padded - raw <= 3 with padded % 4 == 0. -/
theorem c6_size_invariant (st : TCPState) (items : List (Nat × Nat × List Nat))
    (hinv : st.total_options_size = round4 st.options_size)
    (hov : st.options_size + sumRaw items ≤ 2 ^ 32 - 4) :
    (addMany st items).options_size = st.options_size + sumRaw items ∧
      (addMany st items).total_options_size =
        round4 ((addMany st items).options_size) ∧
      (addMany st items).options_size ≤ (addMany st items).total_options_size ∧
      (addMany st items).total_options_size - (addMany st items).options_size ≤ 3 ∧
      (addMany st items).total_options_size % 4 = 0 := by
  obtain ⟨h1, h2⟩ := addMany_sizes items st hinv hov
  refine ⟨h1, by rw [h1, h2], ?_, ?_, ?_⟩
  · rw [h1, h2, round4]
    omega
  · rw [h1, h2, round4]
    omega
  · rw [h2, round4]
    omega

/-- C6 witness: inserting one MSS-like option of length 4 into a fresh
segment gives raw size 6 and padded size 8. -/
theorem c6_size_invariant_witness :
    ((addMany (TCP_init 80 443) [(2, 4, [1, 2, 3, 4])]).options_size =
        (TCP_init 80 443).options_size + sumRaw [(2, 4, [1, 2, 3, 4])] ∧
      (addMany (TCP_init 80 443) [(2, 4, [1, 2, 3, 4])]).total_options_size =
        round4 ((addMany (TCP_init 80 443) [(2, 4, [1, 2, 3, 4])]).options_size) ∧
      (addMany (TCP_init 80 443) [(2, 4, [1, 2, 3, 4])]).options_size ≤
        (addMany (TCP_init 80 443) [(2, 4, [1, 2, 3, 4])]).total_options_size ∧
      (addMany (TCP_init 80 443) [(2, 4, [1, 2, 3, 4])]).total_options_size -
          (addMany (TCP_init 80 443) [(2, 4, [1, 2, 3, 4])]).options_size ≤ 3 ∧
      (addMany (TCP_init 80 443) [(2, 4, [1, 2, 3, 4])]).total_options_size % 4 = 0) :=
  c6_size_invariant (TCP_init 80 443) [(2, 4, [1, 2, 3, 4])] (by decide) (by decide)

theorem addMany_rep_osz : ∀ (n : Nat) (st : TCPState), st.options_size < 2 ^ 32 →
    (addMany st (List.replicate n c6item)).options_size =
      (st.options_size + 257 * n) % 2 ^ 32 := by
  intro n
  induction n with
  | zero =>
    intro st h
    simp [addMany]
    omega
  | succ n ih =>
    intro st h
    rw [List.replicate_succ]
    have hstep : addMany st (c6item :: List.replicate n c6item) =
        addMany (add_option st 5 255 (List.replicate 255 0)) (List.replicate n c6item) := rfl
    rw [hstep]
    have hosz : (add_option st 5 255 (List.replicate 255 0)).options_size =
        (st.options_size + 257) % 2 ^ 32 := by
      show (st.options_size + (255 % 256 + 2)) % 2 ^ 32 = (st.options_size + 257) % 2 ^ 32
      norm_num
    rw [ih _ (by rw [hosz]; exact Nat.mod_lt _ (by norm_num)), hosz,
      Nat.mod_add_mod]
    congr 1
    ring

/-- C6 counterexample: 16711935 insertions of a length-255 option drive
the raw counter to 2^32 - 1 while the padded counter wraps to 0, so the
padded size is strictly below the raw size and the claimed invariant
0 <= padded - raw fails. -/
theorem c6_wrap_counterexample :
    (addMany (TCP_init 80 443) (List.replicate 16711935 c6item)).total_options_size <
      (addMany (TCP_init 80 443) (List.replicate 16711935 c6item)).options_size := by
  have h1 : (16711935 : Nat) = 16711934 + 1 := by norm_num
  have h2 : List.replicate 16711935 c6item =
      List.replicate 16711934 c6item ++ [c6item] := by
    rw [h1, List.replicate_succ']
  have h3 : addMany (TCP_init 80 443) (List.replicate 16711935 c6item) =
      add_option (addMany (TCP_init 80 443) (List.replicate 16711934 c6item))
        c6item.1 c6item.2.1 c6item.2.2 := by
    rw [h2, addMany_append_one]
  have hinit : (TCP_init 80 443).options_size = 0 := rfl
  have h4 : (addMany (TCP_init 80 443) (List.replicate 16711934 c6item)).options_size =
      4294967038 := by
    rw [addMany_rep_osz 16711934 (TCP_init 80 443) (by rw [hinit]; norm_num), hinit]
    norm_num
  have hlen : c6item.2.1 = 255 := rfl
  rw [h3, add_option_osz, add_option_tsz, hlen, h4]
  norm_num

/- SACK lemmas. -/

theorem add_option_opts (st : TCPState) (k len : Nat) (d : List Nat) :
    (add_option st k len d).options =
      st.options ++ [⟨k, len % 256, if len % 256 ≠ 0 then d.take (len % 256) else []⟩] := rfl

theorem net32bytes_len (v : Nat) : (net32bytes v).length = 4 := rfl

theorem flatMap_net32_len : ∀ edges : List Nat,
    (edges.flatMap net32bytes).length = 4 * edges.length := by
  intro edges
  induction edges with
  | nil => rfl
  | cons e es ih =>
    rw [List.flatMap_cons, List.length_append, ih, net32bytes_len, List.length_cons]
    ring

theorem readWords_flat : ∀ edges : List Nat, (∀ e ∈ edges, e < 2 ^ 32) →
    readWords edges.length (edges.flatMap net32bytes) = edges := by
  intro edges
  induction edges with
  | nil => intro _; rfl
  | cons e es ih =>
    intro h
    have he : e < 2 ^ 32 := h e (by simp)
    rw [List.flatMap_cons]
    show readWords (es.length + 1) (net32bytes e ++ es.flatMap net32bytes) = e :: es
    simp only [net32bytes, List.cons_append, List.nil_append, readWords,
      List.getD_cons_zero, List.getD_cons_succ, List.drop_succ_cons, List.drop_zero]
    have hw : e % 2 ^ 32 / 2 ^ 24 * 2 ^ 24 + e % 2 ^ 24 / 2 ^ 16 * 2 ^ 16 +
        e % 2 ^ 16 / 2 ^ 8 * 2 ^ 8 + e % 2 ^ 8 = e := by
      omega
    rw [hw, ih (fun x hx => h x (by simp [hx]))]

/- Claim C7. -/

/-- C7: adding a SACK option with any edge list of 32-bit values whose
encoded size fits the length byte to a segment holding no prior SACK
option and then searching returns the identical ordered list; and
searching a SACK option whose stored length is not a multiple of 4 returns
not-found. -/
theorem c7_sack_roundtrip (t : TCPState) (edges : List Nat)
    (hno : ∀ o ∈ t.options, o.option ≠ 5)
    (h32 : ∀ e ∈ edges, e < 2 ^ 32)
    (hlen : 4 * edges.length ≤ 255) :
    search_sack_option (add_sack_option t edges) = some edges ∧
      ∀ (u : TCPState) (o : TCPOption), search_option u 5 = some o →
        o.length % 4 ≠ 0 → search_sack_option u = none := by
  constructor
  · have hmod : 4 * edges.length % 256 = 4 * edges.length :=
      Nat.mod_eq_of_lt (by omega)
    have hopts : (add_sack_option t edges).options =
        t.options ++ [⟨5, 4 * edges.length, edges.flatMap net32bytes⟩] := by
      show (add_option t 5 (4 * edges.length) (edges.flatMap net32bytes)).options = _
      rw [add_option_opts, hmod]
      by_cases hnil : edges = []
      · subst hnil
        rfl
      · have hpos : 4 * edges.length ≠ 0 := by
          have hne : edges.length ≠ 0 := fun h0 => hnil (List.length_eq_zero.mp h0)
          omega
        rw [if_pos hpos, ← flatMap_net32_len edges, List.take_length]
    have hfind : search_option (add_sack_option t edges) 5 =
        some ⟨5, 4 * edges.length, edges.flatMap net32bytes⟩ := by
      unfold search_option
      rw [hopts, find?_append_none _ _ _ (fun o ho => by simp [hno o ho])]
      simp [List.find?]
    have h4 : 4 * edges.length % 4 = 0 := by omega
    have hdiv : 4 * edges.length / 4 = edges.length := by omega
    simp only [search_sack_option, hfind]
    rw [if_pos h4, hdiv, readWords_flat edges h32]
  · intro u o hf hm
    unfold search_sack_option
    rw [hf]
    simp [hm]

/-- C7 witness: edges [100, 200, 300, 400] on a fresh segment. -/
theorem c7_sack_roundtrip_witness :
    (search_sack_option (add_sack_option (TCP_init 80 443) [100, 200, 300, 400]) =
        some [100, 200, 300, 400] ∧
      ∀ (u : TCPState) (o : TCPOption), search_option u 5 = some o →
        o.length % 4 ≠ 0 → search_sack_option u = none) :=
  c7_sack_roundtrip (TCP_init 80 443) [100, 200, 300, 400] (by decide) (by decide)
    (by decide)

/- Claim C5. -/

/-- C5: evaluation at the failing input for the copy-assignment claim.
copy_fields push_backs the copied options onto the existing destination
list without clearing it, so assigning a one-option segment onto a
one-option segment yields two options, not an element-wise copy of the
source; copy construction (empty initial list) does produce an
element-wise-equal copy. -/
theorem c5_assign_appends :
    (TCP_assign c5dst c5src).options ≠ c5src.options ∧
      (TCP_assign c5dst c5src).options =
        c5dst.options ++ c5src.options.map copy_option ∧
      (TCP_assign c5dst c5src).options.length = 2 ∧
      (TCP_copy_ctor c5src).options = c5src.options := by
  decide

/- Lemmas describing add_option folds and well-formed option entries. -/

theorem addMany_tcp : ∀ (items : List (Nat × Nat × List Nat)) (st : TCPState),
    (addMany st items).tcp = st.tcp := by
  intro items
  induction items with
  | nil => intro st; rfl
  | cons i is ih => intro st; exact ih (add_option st i.1 i.2.1 i.2.2)

theorem addMany_opts : ∀ (items : List (Nat × Nat × List Nat)) (st : TCPState),
    (addMany st items).options = st.options ++ items.map itemOption := by
  intro items
  induction items with
  | nil => intro st; simp [addMany]
  | cons i is ih =>
    intro st
    have hstep : addMany st (i :: is) = addMany (add_option st i.1 i.2.1 i.2.2) is := rfl
    rw [hstep, ih, add_option_opts, List.map_cons, List.append_assoc]
    rfl

theorem entry_itemOption (e : Nat × Nat × List Nat) (he : GoodEntry e) :
    itemOption (e.1, e.2.1 - 2, e.2.2) = entryOption e := by
  obtain ⟨k0, k1, k2, l2, l256, lv⟩ := he
  have hm : (e.2.1 - 2) % 256 = e.2.1 - 2 := Nat.mod_eq_of_lt (by omega)
  unfold itemOption entryOption
  simp only [hm]
  have hv : (if e.2.1 - 2 ≠ 0 then e.2.2.take (e.2.1 - 2) else []) = e.2.2 := by
    by_cases hz : e.2.1 - 2 = 0
    · rw [if_neg (by simpa using hz)]
      exact (List.length_eq_zero.mp (by omega)).symm
    · rw [if_pos hz, ← lv, List.take_length]
  rw [hv]

theorem entry_write (e : Nat × Nat × List Nat) (he : GoodEntry e) :
    TCPOption.write (entryOption e) = entryBytes e := by
  obtain ⟨k0, k1, k2, l2, l256, lv⟩ := he
  unfold TCPOption.write entryOption entryBytes
  rw [if_neg (by simpa using k1)]
  have h1 : e.1 % 256 = e.1 := Nat.mod_eq_of_lt k2
  have h2 : (e.2.1 - 2 + 2) % 256 = e.2.1 := by omega
  rw [h1, h2]

theorem entries_options (entries : List (Nat × Nat × List Nat))
    (he : ∀ e ∈ entries, GoodEntry e) (st : TCPState) :
    (addEntries st entries).options = st.options ++ entries.map entryOption := by
  unfold addEntries
  rw [addMany_opts, List.map_map]
  congr 1
  exact List.map_congr_left fun e hme => entry_itemOption e (he e hme)

theorem sumRaw_entries : ∀ entries : List (Nat × Nat × List Nat),
    (∀ e ∈ entries, GoodEntry e) →
    sumRaw (entries.map fun e => (e.1, e.2.1 - 2, e.2.2)) =
      (entries.map fun e => e.2.1).sum := by
  intro entries
  induction entries with
  | nil => intro _; rfl
  | cons e es ih =>
    intro he
    obtain ⟨k0, k1, k2, l2, l256, lv⟩ := he e (by simp)
    rw [List.map_cons, sumRaw_cons, List.map_cons, List.sum_cons,
      ih (fun x hx => he x (by simp [hx]))]
    show (e.2.1 - 2) % 256 + 2 + _ = _
    have hm : (e.2.1 - 2) % 256 = e.2.1 - 2 := Nat.mod_eq_of_lt (by omega)
    omega

theorem entries_flat_len : ∀ entries : List (Nat × Nat × List Nat),
    (∀ e ∈ entries, GoodEntry e) →
    ((entries.map entryBytes).flatten).length = (entries.map fun e => e.2.1).sum := by
  intro entries
  induction entries with
  | nil => intro _; rfl
  | cons e es ih =>
    intro he
    obtain ⟨k0, k1, k2, l2, l256, lv⟩ := he e (by simp)
    rw [List.map_cons, List.flatten_cons, List.length_append,
      ih (fun x hx => he x (by simp [hx])), List.map_cons, List.sum_cons]
    show (entryBytes e).length + _ = _
    have : (entryBytes e).length = e.2.2.length + 2 := by
      simp [entryBytes]
    omega

theorem drop_add {α : Type} : ∀ (a : Nat) (l : List α) (b : Nat),
    l.drop (a + b) = (l.drop a).drop b := by
  intro a
  induction a with
  | zero => intro l b; simp
  | succ a ih =>
    intro l b
    cases l with
    | nil => simp
    | cons x xs =>
      have h1 : a + 1 + b = a + b + 1 := by omega
      rw [h1, List.drop_succ_cons, List.drop_succ_cons, ih]

theorem add_option_data_eq (st : TCPState) (k len : Nat) (d₁ d₂ : List Nat)
    (h : d₁.take (len % 256) = d₂.take (len % 256)) :
    add_option st k len d₁ = add_option st k len d₂ := by
  simp only [add_option, h]

/-- running the scan over a region that consists exactly of a list of
well-formed stored-option entries performs one add_option per entry and
succeeds. -/
theorem scan_run : ∀ (entries : List (Nat × Nat × List Nat)) (buf : List Nat)
    (hend index : Nat) (st : TCPState) (fuel : Nat),
    (∀ e ∈ entries, GoodEntry e) →
    index + (entries.map fun e => e.2.1).sum = hend →
    hend ≤ buf.length →
    buf.drop index = (entries.map entryBytes).flatten ++ buf.drop hend →
    hend - index ≤ fuel →
    scanOptions fuel buf hend index st = .ok (addEntries st entries) := by
  intro entries
  induction entries with
  | nil =>
    intro buf hend index st fuel hg hsum hle hdrop hfuel
    have hix : index = hend := by simpa using hsum
    rw [scanOptions_stop _ _ _ _ _ (by omega)]
    rfl
  | cons e es ih =>
    intro buf hend index st fuel hg hsum hle hdrop hfuel
    obtain ⟨k0, k1, k2, l2, l256, lv⟩ := hg e (by simp)
    have hsum' : index + e.2.1 + (es.map fun x => x.2.1).sum = hend := by
      rw [List.map_cons, List.sum_cons] at hsum
      omega
    have hix : index < hend := by omega
    have hd0 : buf.drop index =
        e.1 :: (e.2.1 :: (e.2.2 ++ ((es.map entryBytes).flatten ++ buf.drop hend))) := by
      rw [hdrop, List.map_cons, List.flatten_cons]
      simp [entryBytes, List.append_assoc]
    have ha0 : buf.getD index 0 = e.1 := getD_of_drop _ _ _ _ _ hd0
    have hd1 : buf.drop (index + 1) =
        e.2.1 :: (e.2.2 ++ ((es.map entryBytes).flatten ++ buf.drop hend)) :=
      drop_succ_of_drop _ _ _ _ hd0
    have ha1 : buf.getD (index + 1) 0 = e.2.1 := getD_of_drop _ _ _ _ _ hd1
    have hd2 : buf.drop (index + 2) =
        e.2.2 ++ ((es.map entryBytes).flatten ++ buf.drop hend) :=
      drop_succ_of_drop _ _ _ _ hd1
    have hlen : (e.2.1 + 254) % 256 = e.2.1 - 2 := by omega
    obtain ⟨f, rfl⟩ : ∃ f, fuel = f + 1 := ⟨fuel - 1, by omega⟩
    rw [scanOptions_step _ _ _ _ _ hix, ha0, ha1]
    rw [if_neg (by simpa [NOP] using k1), if_neg (by omega),
      if_neg (by simpa [EOL] using k0), hlen, if_neg (by omega)]
    have hm : (e.2.1 - 2) % 256 = e.2.1 - 2 := Nat.mod_eq_of_lt (by omega)
    have hdata : (buf.drop (index + 2)).take ((e.2.1 - 2) % 256) =
        e.2.2.take ((e.2.1 - 2) % 256) := by
      rw [hd2, hm]
      conv_lhs => rw [← lv]
      conv_rhs => rw [← lv]
      rw [List.take_left, List.take_length]
    rw [add_option_data_eq st e.1 (e.2.1 - 2) _ _ hdata]
    have hidx : index + 2 + (e.2.1 - 2) = index + e.2.1 := by omega
    rw [hidx]
    have hstep : addEntries st (e :: es) =
        addEntries (add_option st e.1 (e.2.1 - 2) e.2.2) es := rfl
    rw [hstep]
    refine ih buf hend (index + e.2.1) (add_option st e.1 (e.2.1 - 2) e.2.2) f
      (fun x hx => hg x (by simp [hx])) (by omega) hle ?_ (by omega)
    have hsplit : buf.drop (index + e.2.1) =
        (buf.drop (index + 2)).drop (e.2.1 - 2) := by
      rw [← drop_add (index + 2) buf (e.2.1 - 2), hidx]
    rw [hsplit, hd2]
    conv_lhs => rw [← lv]
    rw [List.drop_left]

/- Claim C1. -/

/-- C1 counterexample: a buffer whose options region contains leading NOP
bytes decodes successfully, has a pre-set nonzero checksum and equal raw
and padded option sizes, yet serializing does not reproduce the original
buffer (NOPs are not stored and not re-emitted in place). -/
theorem c1_roundtrip_counterexample :
    TCP_from_buffer c1buf = .ok (c1st, []) ∧
      checkZeroB (c1buf.take 20) = false ∧
      c1st.options_size = c1st.total_options_size ∧
      (write_serialization c1st none []).1 ++ [] ≠ c1buf := by
  decide

/-- C1 amended: for every byte buffer (byte values below 256, declared
length below 2^32) of at least 20 bytes whose checksum field is pre-set
(non-zero), whose options region is covered by the buffer, and whose
options region consists exactly of the back-to-back encodings of
well-formed stored options (no NOP or EOL bytes), decoding succeeds, the
padded option size equals the raw option size, and serializing the decoded
segment under any parent reproduces the original buffer byte for byte. -/
theorem c1_roundtrip (buf : List Nat)
    (hB : ∀ b ∈ buf, b < 256)
    (hL : buf.length < 2 ^ 32)
    (h20 : 20 ≤ buf.length)
    (hck : checkZeroB (buf.take 20) = false)
    (hscan : headerEnd (getDoff (buf.take 20)) ≤ buf.length - 20)
    (hshape : ∃ entries : List (Nat × Nat × List Nat),
      (∀ e ∈ entries, GoodEntry e) ∧
        (buf.drop 20).take (headerEnd (getDoff (buf.take 20))) =
          (entries.map entryBytes).flatten) :
    ∃ st payload, TCP_from_buffer buf = .ok (st, payload) ∧
      st.options_size = st.total_options_size ∧
      ∀ parent, (write_serialization st parent payload).1 ++ payload = buf := by
  obtain ⟨entries, hge, hreg⟩ := hshape
  have hd16 : getDoff (buf.take 20) < 16 := Nat.mod_lt _ (by norm_num)
  have hd5 : 5 ≤ getDoff (buf.take 20) := by
    by_contra hc
    push_neg at hc
    have hbig : 2 ^ 32 - 20 ≤ headerEnd (getDoff (buf.take 20)) := by
      unfold headerEnd
      omega
    omega
  have hendv : headerEnd (getDoff (buf.take 20)) = 4 * getDoff (buf.take 20) - 20 := by
    unfold headerEnd
    omega
  have hend40 : headerEnd (getDoff (buf.take 20)) ≤ 40 := by omega
  have h4d : headerEnd (getDoff (buf.take 20)) % 4 = 0 := by omega
  have hrest_len : (buf.drop 20).length = buf.length - 20 := by simp
  have hsum : (entries.map fun e => e.2.1).sum = headerEnd (getDoff (buf.take 20)) := by
    have h1 := congrArg List.length hreg
    rw [List.length_take, entries_flat_len entries hge] at h1
    omega
  have hdec : TCP_from_buffer buf =
      .ok (addEntries ⟨buf.take 20, [], 0, 0⟩ entries,
        (buf.drop 20).drop (headerEnd (getDoff (buf.take 20)))) := by
    have hs := scan_run entries (buf.drop 20) (headerEnd (getDoff (buf.take 20))) 0
      ⟨buf.take 20, [], 0, 0⟩ (headerEnd (getDoff (buf.take 20))) hge (by omega)
      (by omega)
      (by
        rw [List.drop_zero, ← hreg, List.take_append_drop])
      (by omega)
    simp only [TCP_from_buffer]
    rw [if_neg (by omega), if_pos hscan, hs]
  refine ⟨_, _, hdec, ?_, ?_⟩
  all_goals
    have hsz := addMany_sizes (entries.map fun e => (e.1, e.2.1 - 2, e.2.2))
      ⟨buf.take 20, [], 0, 0⟩ (by show (0 : Nat) = round4 0; norm_num [round4])
      (by rw [sumRaw_entries entries hge]; simp; omega)
  all_goals
    have hosz : (addEntries ⟨buf.take 20, [], 0, 0⟩ entries).options_size =
        headerEnd (getDoff (buf.take 20)) := by
      show (addMany ⟨buf.take 20, [], 0, 0⟩ _).options_size = _
      rw [hsz.1, sumRaw_entries entries hge]
      simpa using hsum
  all_goals
    have htsz : (addEntries ⟨buf.take 20, [], 0, 0⟩ entries).total_options_size =
        headerEnd (getDoff (buf.take 20)) := by
      show (addMany ⟨buf.take 20, [], 0, 0⟩ _).total_options_size = _
      rw [hsz.2, sumRaw_entries entries hge, round4]
      have h0 : (⟨buf.take 20, [], 0, 0⟩ : TCPState).options_size = 0 := rfl
      rw [h0, hsum]
      omega
  · rw [hosz, htsz]
  intro parent
  have hb12lt : (buf.take 20).getD 12 0 < 256 :=
    getD_lt_of_forall _ 12 256 (fun b hb => hB b (List.take_subset 20 buf hb))
      (by rw [List.length_take]; omega)
  have hstcp : (addEntries ⟨buf.take 20, [], 0, 0⟩ entries).tcp = buf.take 20 :=
    addMany_tcp _ _
  have hdoffNew :
      (20 + (addEntries ⟨buf.take 20, [], 0, 0⟩ entries).total_options_size) / 4 % 16 =
        getDoff (buf.take 20) := by
    rw [htsz, hendv]
    omega
  have hhdr : setDoff (buf.take 20) (getDoff (buf.take 20)) = buf.take 20 := by
    unfold setDoff
    have hb : getDoff (buf.take 20) % 16 * 16 + (buf.take 20).getD 12 0 % 16 =
        (buf.take 20).getD 12 0 := by
      unfold getDoff
      omega
    rw [hb, set_getD_self]
  have hopts : (addEntries ⟨buf.take 20, [], 0, 0⟩ entries).options =
      entries.map entryOption := by
    rw [entries_options entries hge]
    rfl
  have hoptbytes :
      (((addEntries ⟨buf.take 20, [], 0, 0⟩ entries).options.map TCPOption.write).flatten) =
        (entries.map entryBytes).flatten := by
    rw [hopts, List.map_map]
    exact congrArg List.flatten
      (List.map_congr_left fun e hme => entry_write e (hge e hme))
  have hpad : ¬ ((addEntries ⟨buf.take 20, [], 0, 0⟩ entries).options_size <
      (addEntries ⟨buf.take 20, [], 0, 0⟩ entries).total_options_size) := by
    rw [hosz, htsz]
    omega
  have hckhdr : checkZeroB (setDoff (addEntries ⟨buf.take 20, [], 0, 0⟩ entries).tcp
      ((20 + (addEntries ⟨buf.take 20, [], 0, 0⟩ entries).total_options_size) / 4 % 16)) =
      false := by
    rw [hstcp, hdoffNew, hhdr]
    exact hck
  have hout : (write_serialization (addEntries ⟨buf.take 20, [], 0, 0⟩ entries) parent
      ((buf.drop 20).drop (headerEnd (getDoff (buf.take 20))))).1 =
      buf.take 20 ++ (entries.map entryBytes).flatten := by
    cases parent with
    | none =>
      simp only [write_serialization]
      rw [if_neg hpad, hoptbytes, hstcp, hdoffNew, hhdr, List.append_nil]
    | some p =>
      obtain ⟨src, dst⟩ := p
      simp only [write_serialization]
      rw [if_neg (by rw [hckhdr]; simp), if_neg hpad, hoptbytes, hstcp, hdoffNew, hhdr,
        List.append_nil]
  rw [hout, ← hreg, List.append_assoc, List.take_append_drop, List.take_append_drop]

/-- C1 witness: a 24-byte buffer with data offset 6, checksum 0xFFFF and a
single well-formed option entry filling the 4-byte region. -/
theorem c1_roundtrip_witness :
    ∃ st payload,
      TCP_from_buffer (mkHdr 0x60 255 255 ++ [2, 4, 9, 9]) = .ok (st, payload) ∧
        st.options_size = st.total_options_size ∧
        ∀ parent, (write_serialization st parent payload).1 ++ payload =
          mkHdr 0x60 255 255 ++ [2, 4, 9, 9] :=
  c1_roundtrip (mkHdr 0x60 255 255 ++ [2, 4, 9, 9]) (by decide) (by decide)
    (by decide) (by decide) (by decide)
    ⟨[(2, 4, [9, 9])], by decide, by decide⟩
